import Mathlib

/-!
Shallow embedding of the partykit-em tree CRDT core.

The embedding translates, from the TypeScript source:
  * `src/shared/crdt.ts` — `insertMoveOperations` (node creation, op_log
    append with `INSERT OR IGNORE`, the undo `UPDATE`, and the redo loop with
    its recursive-CTE ancestor walk bounded at depth 100);
  * `src/party/server.ts` — the `push` request handler (stamping a batch with
    the server wall clock for persistence, broadcasting the original
    operations) and the `sync:stream` handler (header plus operation stream);
  * `src/shared/turso-driver.ts` — `streamOperations` and `total`.

SQL tables become association lists: `nodes` is a list of
`(id, parent_id)` pairs with unique ids (`INSERT OR IGNORE` on the primary
key), `op_log` a list of rows with unique `timestamp`s.  Timestamps are
compared with `strLt`/`strLe` below, the lexicographic code-point order
that both SQLite `TEXT` comparison and the JavaScript `<` operator use on
the ASCII timestamp strings involved.
-/

/-- Lexicographic strict order on character lists, comparing code points;
a proper prefix is smaller.  This is SQLite's BINARY collation and the
JavaScript `<` on ASCII strings. -/
def ltData : List Char → List Char → Bool
  | [], [] => false
  | [], _ :: _ => true
  | _ :: _, [] => false
  | a :: as, b :: bs =>
      if a.toNat = b.toNat then ltData as bs else decide (a.toNat < b.toNat)

/-- Strict lexicographic order on strings. -/
def strLt (a b : String) : Bool := ltData a.data b.data

/-- Reflexive lexicographic order on strings. -/
def strLe (a b : String) : Bool := strLt a b || decide (a = b)

/-- A move operation as carried on the wire (`src/shared/operation.ts`,
`MoveOperation` without the constant `type: "MOVE"` tag). -/
structure MoveOp where
  timestamp : String
  node_id : String
  old_parent_id : Option String
  new_parent_id : String
  client_id : String
  sync_timestamp : Option String
  last_sync_timestamp : Option String
deriving DecidableEq

/-- Replica state: the materialized `nodes` table (id, parent_id) and the
`op_log` table. -/
structure DB where
  nodes : List (String × Option String)
  op_log : List MoveOp
deriving DecidableEq

/-- JavaScript truthiness applied to a nullable string before SQL
interpolation: both `null` and the empty string interpolate as `NULL`
(`op.old_parent_id ? '...' : "NULL"` in `insertMoveOperations`). -/
def jsNullable (s : Option String) : Option String :=
  match s with
  | some v => if v = "" then none else some v
  | none => none

/-- The initial value of the `reduce` computing the minimum timestamp in
`insertMoveOperations` (crdt.ts line 42). -/
def maxTimestampSentinel : String := "2999-01-01T00:00:00Z"

/-- `operations.reduce((min, op) => min < op.timestamp ? min : op.timestamp,
"2999-01-01T00:00:00Z")` from crdt.ts lines 40-42. -/
def minTimestamp (ops : List MoveOp) : String :=
  ops.foldl (fun m op => if strLt m op.timestamp then m else op.timestamp)
    maxTimestampSentinel

/-- The three node ids referenced by an operation, as interpolated into the
`INSERT OR IGNORE INTO nodes` statement.  A `null` old parent is passed
through the JavaScript template literal, producing the literal id string
"null" (crdt.ts lines 50-56 and 74-76). -/
def nodeRefs (op : MoveOp) : List String :=
  [op.node_id, op.old_parent_id.getD "null", op.new_parent_id]

/-- `INSERT OR IGNORE INTO nodes (id) VALUES ...`: append a row
`(id, NULL)` for every id not already present, in order of first
occurrence (the JavaScript `Set` preserves insertion order). -/
def insertNodeIds (ns : List (String × Option String)) (ids : List String) :
    List (String × Option String) :=
  ids.foldl (fun acc id =>
    if id ∈ acc.map Prod.fst then acc else acc ++ [(id, none)]) ns

/-- The op_log row stored for a pushed operation.  `insertMoveOperations`
lists the six columns explicitly, so `last_sync_timestamp` is never
persisted; nullable columns go through JavaScript truthiness. -/
def toLogRow (op : MoveOp) : MoveOp :=
  { timestamp := op.timestamp
    node_id := op.node_id
    old_parent_id := jsNullable op.old_parent_id
    new_parent_id := op.new_parent_id
    client_id := op.client_id
    sync_timestamp := jsNullable op.sync_timestamp
    last_sync_timestamp := none }

/-- `INSERT OR IGNORE INTO op_log ... VALUES (row)`: the row is dropped when
its primary key `timestamp` already exists. -/
def insertLogRow (log : List MoveOp) (op : MoveOp) : List MoveOp :=
  if log.any (fun e => decide (e.timestamp = op.timestamp)) then log
  else log ++ [toLogRow op]

/-- Batch insertion into op_log, in the order of the `VALUES` list. -/
def insertLog (log : List MoveOp) (ops : List MoveOp) : List MoveOp :=
  ops.foldl insertLogRow log

/-- Insertion into a list kept in ascending `timestamp` order. -/
def insertSorted (e : MoveOp) : List MoveOp → List MoveOp
  | [] => [e]
  | x :: xs =>
      if strLe e.timestamp x.timestamp then e :: x :: xs
      else x :: insertSorted e xs

/-- `ORDER BY timestamp ASC` on a result set. -/
def sortByTimestamp (l : List MoveOp) : List MoveOp :=
  l.foldr insertSorted []

/-- The subquery `SELECT old_parent_id FROM op_log WHERE node_id = id AND
timestamp >= minT ORDER BY timestamp ASC LIMIT 1`, returning the whole
earliest row. -/
def earliestSince (log : List MoveOp) (minT id : String) : Option MoveOp :=
  (sortByTimestamp (log.filter
    (fun e => decide (e.node_id = id) && strLe minT e.timestamp))).head?

/-- The undo phase `UPDATE` of crdt.ts lines 84-97: every node that has a
log entry with `timestamp >= minT` is reset to the `old_parent_id` of its
earliest such entry; other rows are untouched. -/
def undoNodes (log : List MoveOp) (minT : String)
    (ns : List (String × Option String)) : List (String × Option String) :=
  ns.map (fun r =>
    match earliestSince log minT r.1 with
    | some e => (r.1, e.old_parent_id)
    | none => r)

/-- `SELECT parent_id FROM nodes WHERE id = a`: `none` when no row exists,
`some p` when the row exists with parent `p` (possibly NULL). -/
def lookupParent (ns : List (String × Option String)) (a : String) :
    Option (Option String) :=
  (ns.find? (fun r => decide (r.1 = a))).map Prod.snd

/-- Recursive part of the `ancestors` CTE (crdt.ts lines 123-137): from a
row holding id `a` at some depth, follow `parent_id` upward while the
parent is non-NULL, differs from `new_parent_id`, and the depth bound has
not been reached.  `fuel` counts the remaining depth budget. -/
def ancestorChainAux (ns : List (String × Option String)) (newParent : String) :
    String → Nat → List String
  | _, 0 => []
  | a, fuel + 1 =>
      match lookupParent ns a with
      | some (some p) =>
          if p = newParent then [] else p :: ancestorChainAux ns newParent p fuel
      | _ => []

/-- The non-NULL ids produced by the `ancestors` CTE for `new_parent_id`:
the base row holds the parent of `new_parent_id` at depth 1, and recursion
is limited to `a.depth < 100`, so ids appear at depths 1 through 100. -/
def ancestorChain (ns : List (String × Option String)) (newParent : String) :
    List String :=
  match lookupParent ns newParent with
  | some (some p0) => p0 :: ancestorChainAux ns newParent p0 99
  | _ => []

/-- One redo `UPDATE` (crdt.ts lines 122-147): set `parent_id` of
`node_id` to `new_parent_id` unless `node_id` occurs in the ancestor chain
of `new_parent_id`, in which case the row keeps its parent. -/
def applyMoveStatement (ns : List (String × Option String)) (e : MoveOp) :
    List (String × Option String) :=
  ns.map (fun r =>
    if r.1 = e.node_id then
      (r.1, if e.node_id ∈ ancestorChain ns e.new_parent_id
            then r.2 else some e.new_parent_id)
    else r)

/-- The redo phase: select log entries with `timestamp >= minT` in
ascending timestamp order, keep those whose `node_id` and `new_parent_id`
are truthy, and execute the per-entry update statements in order. -/
def redo (log : List MoveOp) (minT : String)
    (ns : List (String × Option String)) : List (String × Option String) :=
  ((sortByTimestamp (log.filter (fun e => strLe minT e.timestamp))).filter
      (fun e => !decide (e.node_id = "") && !decide (e.new_parent_id = ""))).foldl
    applyMoveStatement ns

/-- `insertMoveOperations` from crdt.ts lines 34-163: early return on an
empty batch, then — inside one transaction — node creation, log insertion,
the undo phase, and the redo phase. -/
def insertMoveOperations (db : DB) (ops : List MoveOp) : DB :=
  if ops.isEmpty then db
  else
    let minT := minTimestamp ops
    let log1 := insertLog db.op_log ops
    let nodes1 := insertNodeIds db.nodes (ops.flatMap nodeRefs)
    let nodes2 := undoNodes log1 minT nodes1
    { nodes := redo log1 minT nodes2, op_log := log1 }

/-- The tables created by `TursoDriver.createTables`: reserved rows ROOT and
TOMBSTONE with NULL parents, empty op_log. -/
def initialDB : DB :=
  { nodes := [("ROOT", none), ("TOMBSTONE", none)], op_log := [] }

/-- Result of the Relay `push` handler. -/
structure PushResult where
  db : DB
  broadcast : List MoveOp
  response_sync_timestamp : String
deriving DecidableEq

/-- The `push` case of `Server.onRequest` (server.ts lines 150-179): on a
non-empty batch of MOVE operations the Relay persists the operations with
`sync_timestamp` overwritten by the server wall clock `now`, broadcasts the
original `message.operations` unchanged, and answers `{sync_timestamp:
now}`.  An empty batch is answered without persistence or broadcast. -/
def serverPush (db : DB) (ops : List MoveOp) (now : String) : PushResult :=
  if ops.isEmpty then
    { db := db, broadcast := [], response_sync_timestamp := now }
  else
    { db := insertMoveOperations db
        (ops.map (fun op => { op with sync_timestamp := some now }))
      broadcast := ops
      response_sync_timestamp := now }

/-- Row filter of `TursoDriver.streamOperations` and `TursoDriver.total`:
`sync_timestamp >= from AND sync_timestamp <= until` (a NULL
`sync_timestamp` satisfies neither comparison). -/
def syncInRange (e : MoveOp) (fromTs untilTs : String) : Bool :=
  match e.sync_timestamp with
  | some s => strLe fromTs s && strLe s untilTs
  | none => false

/-- `TursoDriver.streamOperations` (turso-driver.ts lines 113-152): the
concatenation of the LIMIT/OFFSET chunks over a static log, i.e. the rows
with `sync_timestamp` between `fromTs` and `untilTs` inclusive, in
ascending `timestamp` order. -/
def streamOperations (log : List MoveOp) (fromTs untilTs : String) :
    List MoveOp :=
  sortByTimestamp (log.filter (fun e => syncInRange e fromTs untilTs))

/-- The header line of a `sync:stream` response (server.ts lines 184-196). -/
structure SyncStreamHeader where
  lowerLimit : String
  upperLimit : String
  nodes : Nat
  operations : Nat
deriving DecidableEq

/-- The `sync:stream` case of `Server.onRequest`: `upperLimit` is the wall
clock snapshotted at request start; the header carries the counts from
`TursoDriver.total` over the same bounds, followed by the operation
stream. -/
def syncStreamResponse (db : DB) (lastSyncTimestamp now : String) :
    SyncStreamHeader × List MoveOp :=
  ({ lowerLimit := lastSyncTimestamp
     upperLimit := now
     nodes := db.nodes.length
     operations :=
       (db.op_log.filter (fun e => syncInRange e lastSyncTimestamp now)).length },
   streamOperations db.op_log lastSyncTimestamp now)

/-- Iterated parent lookup: follow `parent_id` upward `k` steps. -/
def parentIter (ns : List (String × Option String)) : Nat → String → Option String
  | 0, a => some a
  | k + 1, a =>
      match lookupParent ns a with
      | some (some p) => parentIter ns k p
      | _ => none

/-! ### Order lemmas for the lexicographic timestamp comparison -/

theorem charToNat_inj {a b : Char} (h : a.toNat = b.toNat) : a = b :=
  Char.ext (UInt32.ext h)

theorem ltData_irrefl (l : List Char) : ltData l l = false := by
  induction l with
  | nil => rfl
  | cons a as ih => simp [ltData, ih]

theorem ltData_trans : ∀ {a b c : List Char},
    ltData a b = true → ltData b c = true → ltData a c = true
  | [], _ :: _, [], _, h2 => by simp [ltData] at h2
  | [], _ :: _, _ :: _, _, _ => rfl
  | x :: xs, y :: ys, [], h1, h2 => by simp [ltData] at h2
  | x :: xs, y :: ys, z :: zs, h1, h2 => by
      simp only [ltData] at h1 h2 ⊢
      by_cases hxy : x.toNat = y.toNat
      · by_cases hyz : y.toNat = z.toNat
        · rw [if_pos hxy] at h1
          rw [if_pos hyz] at h2
          rw [if_pos (hxy.trans hyz)]
          exact ltData_trans h1 h2
        · rw [if_pos hxy] at h1
          rw [if_neg hyz] at h2
          rw [if_neg (hxy ▸ hyz)]
          exact hxy ▸ h2
      · rw [if_neg hxy] at h1
        by_cases hyz : y.toNat = z.toNat
        · rw [if_pos hyz] at h2
          rw [if_neg (hyz ▸ hxy)]
          exact hyz ▸ h1
        · rw [if_neg hyz] at h2
          have hx : x.toNat < y.toNat := of_decide_eq_true h1
          have hy : y.toNat < z.toNat := of_decide_eq_true h2
          have hxz : x.toNat < z.toNat := Nat.lt_trans hx hy
          rw [if_neg (Nat.ne_of_lt hxz)]
          exact decide_eq_true hxz

theorem ltData_eq_of_not_lt : ∀ {a b : List Char},
    ltData a b = false → ltData b a = false → a = b
  | [], [], _, _ => rfl
  | [], _ :: _, h1, _ => by simp [ltData] at h1
  | _ :: _, [], _, h2 => by simp [ltData] at h2
  | x :: xs, y :: ys, h1, h2 => by
      simp only [ltData] at h1 h2
      by_cases hxy : x.toNat = y.toNat
      · rw [if_pos hxy] at h1
        rw [if_pos hxy.symm] at h2
        rw [charToNat_inj hxy, ltData_eq_of_not_lt h1 h2]
      · rw [if_neg hxy] at h1
        rw [if_neg (fun h => hxy h.symm)] at h2
        have hx : ¬x.toNat < y.toNat := of_decide_eq_false h1
        have hy : ¬y.toNat < x.toNat := of_decide_eq_false h2
        exact absurd (Nat.le_antisymm (Nat.le_of_not_lt hy) (Nat.le_of_not_lt hx)) hxy

theorem strLt_irrefl (a : String) : strLt a a = false := ltData_irrefl a.data

theorem strLt_trans {a b c : String} (h1 : strLt a b = true)
    (h2 : strLt b c = true) : strLt a c = true := ltData_trans h1 h2

theorem strEq_of_not_lt {a b : String} (h1 : strLt a b = false)
    (h2 : strLt b a = false) : a = b := by
  cases a with
  | mk da => cases b with
    | mk db => exact congrArg String.mk (ltData_eq_of_not_lt h1 h2)

theorem strLe_refl (a : String) : strLe a a = true := by
  simp [strLe]

theorem strLe_of_lt {a b : String} (h : strLt a b = true) : strLe a b = true := by
  simp [strLe, h]

theorem strLe_cases {a b : String} (h : strLe a b = true) :
    strLt a b = true ∨ a = b := by
  rcases Bool.or_eq_true_iff.mp h with h' | h'
  · exact Or.inl h'
  · exact Or.inr (of_decide_eq_true h')

theorem strLt_asymm {a b : String} (h : strLt a b = true) :
    strLt b a = false := by
  cases hba : strLt b a
  · rfl
  · have := strLt_trans h hba
    rw [strLt_irrefl] at this
    exact absurd this (by simp)

theorem strLe_of_not_lt {a b : String} (h : strLt a b = false) :
    strLe b a = true := by
  cases hba : strLt b a
  · exact (strEq_of_not_lt hba h) ▸ strLe_refl b
  · exact strLe_of_lt hba

theorem strLt_of_not_le {a b : String} (h : strLe a b = false) :
    strLt b a = true := by
  cases hba : strLt b a
  · cases hab : strLt a b
    · have heq : a = b := strEq_of_not_lt hab hba
      rw [heq] at h
      exact absurd (strLe_refl b) (by simp [h])
    · exact absurd (strLe_of_lt hab) (by simp [h])
  · rfl

theorem strLe_trans {a b c : String} (h1 : strLe a b = true)
    (h2 : strLe b c = true) : strLe a c = true := by
  rcases strLe_cases h1 with h1' | rfl
  · rcases strLe_cases h2 with h2' | rfl
    · exact strLe_of_lt (strLt_trans h1' h2')
    · exact strLe_of_lt h1'
  · exact h2

theorem strLe_antisymm {a b : String} (h1 : strLe a b = true)
    (h2 : strLe b a = true) : a = b := by
  rcases strLe_cases h1 with h1' | rfl
  · rcases strLe_cases h2 with h2' | h2'
    · exact absurd (strLt_trans h1' h2') (by simp [strLt_irrefl])
    · exact h2'.symm
  · rfl

theorem strLe_lt_trans {a b c : String} (h1 : strLe a b = true)
    (h2 : strLt b c = true) : strLt a c = true := by
  rcases strLe_cases h1 with h1' | rfl
  · exact strLt_trans h1' h2
  · exact h2

/-! ### Lemmas about the minimum-timestamp fold -/

/-- One step of the JavaScript `reduce` computing the minimum timestamp. -/
def minStep (m : String) (op : MoveOp) : String :=
  if strLt m op.timestamp then m else op.timestamp

theorem minTimestamp_eq_foldl (ops : List MoveOp) :
    minTimestamp ops = ops.foldl minStep maxTimestampSentinel := rfl

theorem minStep_le_left (m : String) (op : MoveOp) :
    strLe (minStep m op) m = true := by
  unfold minStep
  cases h : strLt m op.timestamp
  · rw [if_neg (by simp [h])]
    exact strLe_of_not_lt h
  · rw [if_pos (by simp [h])]
    exact strLe_refl m

theorem minStep_le_right (m : String) (op : MoveOp) :
    strLe (minStep m op) op.timestamp = true := by
  unfold minStep
  cases h : strLt m op.timestamp
  · rw [if_neg (by simp [h])]
    exact strLe_refl _
  · rw [if_pos (by simp [h])]
    exact strLe_of_lt h

theorem le_minStep {c m : String} {op : MoveOp} (h1 : strLe c m = true)
    (h2 : strLe c op.timestamp = true) : strLe c (minStep m op) = true := by
  unfold minStep
  cases h : strLt m op.timestamp
  · rw [if_neg (by simp [h])]; exact h2
  · rw [if_pos (by simp [h])]; exact h1

theorem minStep_mono {a b : String} (op : MoveOp) (h : strLe a b = true) :
    strLe (minStep a op) (minStep b op) = true := by
  unfold minStep
  cases ha : strLt a op.timestamp
  · cases hb : strLt b op.timestamp
    · rw [if_neg (by simp [ha]), if_neg (by simp [hb])]
      exact strLe_refl _
    · rw [if_neg (by simp [ha]), if_pos (by simp [hb])]
      have hta : strLe op.timestamp a = true := strLe_of_not_lt ha
      have : strLt b op.timestamp = true := hb
      exact absurd (strLe_lt_trans (strLe_trans hta h) this)
        (by simp [strLt_irrefl])
  · cases hb : strLt b op.timestamp
    · rw [if_pos (by simp [ha]), if_neg (by simp [hb])]
      exact strLe_of_lt ha
    · rw [if_pos (by simp [ha]), if_pos (by simp [hb])]
      exact h

theorem foldlMin_le_init (l : List MoveOp) :
    ∀ a : String, strLe (l.foldl minStep a) a = true := by
  induction l with
  | nil => intro a; exact strLe_refl a
  | cons t l ih =>
      intro a
      exact strLe_trans (ih (minStep a t)) (minStep_le_left a t)

theorem foldlMin_le_mem {l : List MoveOp} {op : MoveOp} (h : op ∈ l) :
    ∀ a : String, strLe (l.foldl minStep a) op.timestamp = true := by
  induction l with
  | nil => cases h
  | cons t l ih =>
      intro a
      rcases List.mem_cons.mp h with rfl | h'
      · exact strLe_trans (foldlMin_le_init l (minStep a op)) (minStep_le_right a op)
      · exact ih h' (minStep a t)

theorem le_foldlMin {c : String} {l : List MoveOp}
    (hall : ∀ op ∈ l, strLe c op.timestamp = true) :
    ∀ a : String, strLe c a = true → strLe c (l.foldl minStep a) = true := by
  induction l with
  | nil => intro a ha; exact ha
  | cons t l ih =>
      intro a ha
      exact ih (fun op hop => hall op (List.mem_cons_of_mem t hop)) (minStep a t)
        (le_minStep ha (hall t (List.mem_cons_self t l)))

theorem foldlMin_mono {l : List MoveOp} :
    ∀ {a b : String}, strLe a b = true →
      strLe (l.foldl minStep a) (l.foldl minStep b) = true := by
  induction l with
  | nil => intro a b h; exact h
  | cons t l ih => intro a b h; exact ih (minStep_mono t h)

theorem foldlMin_init_or_mem (l : List MoveOp) :
    ∀ a : String, l.foldl minStep a = a ∨
      l.foldl minStep a ∈ l.map MoveOp.timestamp := by
  induction l with
  | nil => intro a; exact Or.inl rfl
  | cons t l ih =>
      intro a
      rcases ih (minStep a t) with h | h
      · rw [List.foldl_cons, h]
        unfold minStep
        cases hlt : strLt a t.timestamp
        · rw [if_neg (by simp [hlt])]
          exact Or.inr (List.mem_cons_self _ _)
        · rw [if_pos (by simp [hlt])]
          exact Or.inl rfl
      · exact Or.inr (List.mem_cons_of_mem _ h)

theorem minTimestamp_le_mem {ops : List MoveOp} {op : MoveOp} (h : op ∈ ops) :
    strLe (minTimestamp ops) op.timestamp = true :=
  foldlMin_le_mem h maxTimestampSentinel

theorem minTimestamp_le_sentinel (ops : List MoveOp) :
    strLe (minTimestamp ops) maxTimestampSentinel = true :=
  foldlMin_le_init ops maxTimestampSentinel

theorem minTimestamp_sentinel_or_mem (ops : List MoveOp) :
    minTimestamp ops = maxTimestampSentinel ∨
      minTimestamp ops ∈ ops.map MoveOp.timestamp :=
  foldlMin_init_or_mem ops maxTimestampSentinel

theorem minTimestamp_append_eq {B1 B2 : List MoveOp}
    (hmin : ∀ op ∈ B1, strLe (minTimestamp B2) op.timestamp = true) :
    minTimestamp (B1 ++ B2) = minTimestamp B2 := by
  have h12 : strLe (minTimestamp B2) (minTimestamp B1) = true :=
    le_foldlMin hmin maxTimestampSentinel (minTimestamp_le_sentinel B2)
  have hle : strLe (minTimestamp (B1 ++ B2)) (minTimestamp B2) = true := by
    rw [minTimestamp_eq_foldl (B1 ++ B2), List.foldl_append]
    exact foldlMin_mono (minTimestamp_le_sentinel B1)
  have hge : strLe (minTimestamp B2) (minTimestamp (B1 ++ B2)) = true := by
    rw [minTimestamp_eq_foldl (B1 ++ B2), List.foldl_append]
    exact le_foldlMin (fun op hop => foldlMin_le_mem hop maxTimestampSentinel)
      (B1.foldl minStep maxTimestampSentinel) h12
  exact strLe_antisymm hle hge

/-! ### Sorting and selection lemmas -/

theorem mem_insertSorted {a e : MoveOp} : ∀ {l : List MoveOp},
    a ∈ insertSorted e l ↔ a = e ∨ a ∈ l := by
  intro l
  induction l with
  | nil => simp [insertSorted]
  | cons x xs ih =>
      unfold insertSorted
      by_cases h : strLe e.timestamp x.timestamp = true
      · rw [if_pos h]
        simp
      · rw [if_neg h]
        simp only [List.mem_cons, ih]
        tauto

theorem mem_sortByTimestamp {a : MoveOp} : ∀ {l : List MoveOp},
    a ∈ sortByTimestamp l ↔ a ∈ l := by
  intro l
  induction l with
  | nil => simp [sortByTimestamp]
  | cons x xs ih =>
      show a ∈ insertSorted x (sortByTimestamp xs) ↔ _
      rw [mem_insertSorted]
      simp only [List.mem_cons, ih]

/-- The ordering predicate of `sortByTimestamp`. -/
def tsLe (a b : MoveOp) : Prop := strLe a.timestamp b.timestamp = true

theorem pairwise_insertSorted {e : MoveOp} : ∀ {l : List MoveOp},
    l.Pairwise tsLe → (insertSorted e l).Pairwise tsLe := by
  intro l
  induction l with
  | nil => intro _; simp [insertSorted, List.pairwise_cons]
  | cons x xs ih =>
      intro h
      rcases List.pairwise_cons.mp h with ⟨hx, hxs⟩
      unfold insertSorted
      by_cases hle : strLe e.timestamp x.timestamp = true
      · rw [if_pos hle]
        refine List.pairwise_cons.mpr ⟨?_, h⟩
        intro b hb
        rcases List.mem_cons.mp hb with rfl | hb'
        · exact hle
        · exact strLe_trans hle (hx b hb')
      · rw [if_neg hle]
        refine List.pairwise_cons.mpr ⟨?_, ih hxs⟩
        intro b hb
        rcases mem_insertSorted.mp hb with rfl | hb'
        · exact strLe_of_lt (strLt_of_not_le (by simpa using hle))
        · exact hx b hb'

theorem pairwise_sortByTimestamp : ∀ (l : List MoveOp),
    (sortByTimestamp l).Pairwise tsLe := by
  intro l
  induction l with
  | nil => simp [sortByTimestamp]
  | cons x xs ih => exact pairwise_insertSorted ih

theorem sortByTimestamp_head_le {x : MoveOp} {xs l : List MoveOp}
    (h : sortByTimestamp l = x :: xs) :
    ∀ y ∈ l, strLe x.timestamp y.timestamp = true := by
  intro y hy
  have hmem : y ∈ x :: xs := h ▸ mem_sortByTimestamp.mpr hy
  rcases List.mem_cons.mp hmem with rfl | hy'
  · exact strLe_refl _
  · have hp := pairwise_sortByTimestamp l
    rw [h] at hp
    exact (List.pairwise_cons.mp hp).1 y hy'

/-- The selection predicate of `earliestSince`. -/
def sincePred (id minT : String) (e : MoveOp) : Bool :=
  decide (e.node_id = id) && strLe minT e.timestamp

theorem earliestSince_mem {log : List MoveOp} {minT id : String} {e : MoveOp}
    (h : earliestSince log minT id = some e) :
    e ∈ log ∧ e.node_id = id ∧ strLe minT e.timestamp = true := by
  unfold earliestSince at h
  have hmem := List.mem_of_mem_head? (l := sortByTimestamp (log.filter
    (fun e => decide (e.node_id = id) && strLe minT e.timestamp)))
    (show e ∈ _ by rw [h]; exact Option.mem_def.mpr rfl)
  have := mem_sortByTimestamp.mp hmem
  rcases List.mem_filter.mp this with ⟨hlog, hpred⟩
  rcases Bool.and_eq_true_iff.mp hpred with ⟨h1, h2⟩
  exact ⟨hlog, of_decide_eq_true h1, h2⟩

theorem earliestSince_isSome {log : List MoveOp} {minT id : String} {e : MoveOp}
    (hmem : e ∈ log) (hid : e.node_id = id) (hts : strLe minT e.timestamp = true) :
    earliestSince log minT id ≠ none := by
  unfold earliestSince
  intro hnone
  have hf : e ∈ log.filter (fun e => decide (e.node_id = id) && strLe minT e.timestamp) :=
    List.mem_filter.mpr ⟨hmem, by simp [hid, hts]⟩
  have hs : e ∈ sortByTimestamp (log.filter
      (fun e => decide (e.node_id = id) && strLe minT e.timestamp)) :=
    mem_sortByTimestamp.mpr hf
  rw [List.head?_eq_none_iff.mp hnone] at hs
  cases hs

theorem earliestSince_minimal {log : List MoveOp} {minT id : String} {e : MoveOp}
    (h : earliestSince log minT id = some e) :
    ∀ e' ∈ log, e'.node_id = id → strLe minT e'.timestamp = true →
      strLe e.timestamp e'.timestamp = true := by
  intro e' hmem hid hts
  unfold earliestSince at h
  rcases hsort : sortByTimestamp (log.filter
      (fun e => decide (e.node_id = id) && strLe minT e.timestamp)) with _ | ⟨x, xs⟩
  · rw [hsort] at h; cases h
  · rw [hsort] at h
    have hx : x = e := by cases h; rfl
    subst hx
    exact sortByTimestamp_head_le hsort e'
      (List.mem_filter.mpr ⟨hmem, by simp [hid, hts]⟩)

/-! ### Key preservation and absorption lemmas for undo and redo -/

theorem fst_undoNodes (log : List MoveOp) (minT : String)
    (ns : List (String × Option String)) :
    (undoNodes log minT ns).map Prod.fst = ns.map Prod.fst := by
  unfold undoNodes
  rw [List.map_map]
  refine List.map_congr_left ?_
  intro r _
  rcases h : earliestSince log minT r.1 with _ | e <;> simp [h, Function.comp]

theorem fst_applyMoveStatement (ns : List (String × Option String)) (e : MoveOp) :
    (applyMoveStatement ns e).map Prod.fst = ns.map Prod.fst := by
  unfold applyMoveStatement
  rw [List.map_map]
  refine List.map_congr_left ?_
  intro r _
  by_cases h : r.1 = e.node_id <;> simp [h, Function.comp]

theorem fst_foldl_applyMoveStatement : ∀ (mvs : List MoveOp)
    (ns : List (String × Option String)),
    (mvs.foldl applyMoveStatement ns).map Prod.fst = ns.map Prod.fst := by
  intro mvs
  induction mvs with
  | nil => intro ns; rfl
  | cons e mvs ih =>
      intro ns
      rw [List.foldl_cons, ih, fst_applyMoveStatement]

theorem fst_redo (log : List MoveOp) (minT : String)
    (ns : List (String × Option String)) :
    (redo log minT ns).map Prod.fst = ns.map Prod.fst :=
  fst_foldl_applyMoveStatement _ ns

/-- Composing two undo passes: the second pass wins wherever it selects an
entry, and wherever it selects nothing the first pass selected nothing
either (by `hyp`), so the composition equals the second pass alone. -/
theorem undoNodes_undoNodes {L1 L2 : List MoveOp} {m1 m2 : String}
    (hyp : ∀ id e, earliestSince L1 m1 id = some e →
      earliestSince L2 m2 id ≠ none)
    (ns : List (String × Option String)) :
    undoNodes L2 m2 (undoNodes L1 m1 ns) = undoNodes L2 m2 ns := by
  unfold undoNodes
  rw [List.map_map]
  refine List.map_congr_left ?_
  intro r _
  rcases h2 : earliestSince L2 m2 r.1 with _ | e2
  · rcases h1 : earliestSince L1 m1 r.1 with _ | e1
    · simp [Function.comp, h1, h2]
    · exact absurd h2 (hyp r.1 e1 h1)
  · rcases h1 : earliestSince L1 m1 r.1 with _ | e1 <;>
      simp [Function.comp, h1, h2]

/-- A redo statement only rewrites the row of its `node_id`; if the later
undo pass selects an entry for that id, the undo overwrites whatever the
statement wrote. -/
theorem undoNodes_applyMoveStatement {L2 : List MoveOp} {m2 : String}
    {e : MoveOp} (hyp : earliestSince L2 m2 e.node_id ≠ none)
    (ns : List (String × Option String)) :
    undoNodes L2 m2 (applyMoveStatement ns e) = undoNodes L2 m2 ns := by
  unfold undoNodes applyMoveStatement
  rw [List.map_map]
  refine List.map_congr_left ?_
  intro r _
  by_cases hr : r.1 = e.node_id
  · rcases h2 : earliestSince L2 m2 r.1 with _ | e2
    · exact absurd h2 (hr ▸ hyp)
    · rw [hr] at h2
      simp [Function.comp, hr, h2]
  · simp [Function.comp, hr]

theorem undoNodes_foldl_applyMoveStatement {L2 : List MoveOp} {m2 : String} :
    ∀ {mvs : List MoveOp},
      (∀ e ∈ mvs, earliestSince L2 m2 e.node_id ≠ none) →
      ∀ ns, undoNodes L2 m2 (mvs.foldl applyMoveStatement ns) =
        undoNodes L2 m2 ns := by
  intro mvs
  induction mvs with
  | nil => intro _ ns; rfl
  | cons e mvs ih =>
      intro h ns
      rw [List.foldl_cons,
        ih (fun x hx => h x (List.mem_cons_of_mem e hx)),
        undoNodes_applyMoveStatement (h e (List.mem_cons_self e mvs))]

/-- The list of redo statements of a replay from `minT`. -/
def redoMoves (log : List MoveOp) (minT : String) : List MoveOp :=
  (sortByTimestamp (log.filter (fun e => strLe minT e.timestamp))).filter
    (fun e => !decide (e.node_id = "") && !decide (e.new_parent_id = ""))

theorem redo_eq_foldl (log : List MoveOp) (minT : String)
    (ns : List (String × Option String)) :
    redo log minT ns = (redoMoves log minT).foldl applyMoveStatement ns := rfl

theorem mem_redoMoves {log : List MoveOp} {minT : String} {e : MoveOp}
    (h : e ∈ redoMoves log minT) :
    e ∈ log ∧ strLe minT e.timestamp = true := by
  unfold redoMoves at h
  rcases List.mem_filter.mp h with ⟨hs, _⟩
  rcases List.mem_filter.mp (mem_sortByTimestamp.mp hs) with ⟨hlog, hts⟩
  exact ⟨hlog, hts⟩

/-- Undo erases the effect of a whole replay whenever every replayed entry
is still selected by the undo pass. -/
theorem undoNodes_redo {L1 L2 : List MoveOp} {m1 m2 : String}
    (hyp : ∀ e, e ∈ L1 → strLe m1 e.timestamp = true →
      e ∈ L2 ∧ strLe m2 e.timestamp = true)
    (ns : List (String × Option String)) :
    undoNodes L2 m2 (redo L1 m1 ns) = undoNodes L2 m2 ns := by
  rw [redo_eq_foldl]
  refine undoNodes_foldl_applyMoveStatement ?_ ns
  intro e he
  rcases mem_redoMoves he with ⟨hlog, hts⟩
  rcases hyp e hlog hts with ⟨hlog2, hts2⟩
  exact earliestSince_isSome hlog2 rfl hts2

/-! ### Lemmas about op_log insertion -/

theorem insertLog_append (L : List MoveOp) (a b : List MoveOp) :
    insertLog L (a ++ b) = insertLog (insertLog L a) b :=
  List.foldl_append ..

theorem mem_insertLogRow_of_mem {L : List MoveOp} {e : MoveOp} (op : MoveOp)
    (h : e ∈ L) : e ∈ insertLogRow L op := by
  unfold insertLogRow
  by_cases hc : L.any (fun x => decide (x.timestamp = op.timestamp)) = true
  · rw [if_pos hc]; exact h
  · rw [if_neg hc]; exact List.mem_append_left _ h

theorem mem_insertLog_of_mem {e : MoveOp} : ∀ {B : List MoveOp}
    {L : List MoveOp}, e ∈ L → e ∈ insertLog L B := by
  intro B
  induction B with
  | nil => intro L h; exact h
  | cons op B ih =>
      intro L h
      exact ih (mem_insertLogRow_of_mem op h)

/-- Presence of a timestamp among the rows of a log. -/
def hasTs (L : List MoveOp) (t : String) : Bool :=
  L.any (fun e => decide (e.timestamp = t))

theorem hasTs_insertLogRow_mono {L : List MoveOp} {t : String} (op : MoveOp)
    (h : hasTs L t = true) : hasTs (insertLogRow L op) t = true := by
  unfold insertLogRow
  by_cases hc : L.any (fun x => decide (x.timestamp = op.timestamp)) = true
  · rw [if_pos hc]; exact h
  · rw [if_neg hc]
    unfold hasTs at h ⊢
    rw [List.any_append, h, Bool.true_or]

theorem hasTs_insertLogRow_self (L : List MoveOp) (op : MoveOp) :
    hasTs (insertLogRow L op) op.timestamp = true := by
  unfold insertLogRow
  by_cases hc : L.any (fun x => decide (x.timestamp = op.timestamp)) = true
  · rw [if_pos hc]; exact hc
  · rw [if_neg hc]
    unfold hasTs
    rw [List.any_append]
    have : (toLogRow op).timestamp = op.timestamp := rfl
    simp [List.any_cons, this]

theorem hasTs_insertLog_mono {t : String} : ∀ {B : List MoveOp}
    {L : List MoveOp}, hasTs L t = true → hasTs (insertLog L B) t = true := by
  intro B
  induction B with
  | nil => intro L h; exact h
  | cons y B ih =>
      intro L h
      exact ih (hasTs_insertLogRow_mono y h)

theorem hasTs_insertLog_self {op : MoveOp} : ∀ {B : List MoveOp}, op ∈ B →
    ∀ L, hasTs (insertLog L B) op.timestamp = true := by
  intro B
  induction B with
  | nil => intro h; cases h
  | cons x B ih =>
      intro h L
      rcases List.mem_cons.mp h with rfl | h'
      · show hasTs (insertLog (insertLogRow L op) B) op.timestamp = true
        exact hasTs_insertLog_mono (hasTs_insertLogRow_self L op)
      · exact ih h' (insertLogRow L x)

theorem insertLog_of_hasTs : ∀ {B : List MoveOp} {L : List MoveOp},
    (∀ op ∈ B, hasTs L op.timestamp = true) → insertLog L B = L := by
  intro B
  induction B with
  | nil => intro L _; rfl
  | cons op B ih =>
      intro L h
      have hrow : insertLogRow L op = L := by
        have hc := h op (List.mem_cons_self op B)
        unfold hasTs at hc
        unfold insertLogRow
        rw [if_pos hc]
      show insertLog (insertLogRow L op) B = L
      rw [hrow]
      exact ih (fun x hx => h x (List.mem_cons_of_mem op hx))

/-! ### Lemmas about node-row insertion -/

theorem insertNodeIds_append (ns : List (String × Option String))
    (a b : List String) :
    insertNodeIds ns (a ++ b) = insertNodeIds (insertNodeIds ns a) b :=
  List.foldl_append ..

/-- The fresh rows appended by `insertNodeIds`, as a function of the key
set only. -/
def newNodeRows (keys : List String) : List String → List (String × Option String)
  | [] => []
  | id :: ids =>
      if id ∈ keys then newNodeRows keys ids
      else (id, none) :: newNodeRows (keys ++ [id]) ids

theorem insertNodeIds_spec : ∀ (ids : List String)
    (ns : List (String × Option String)),
    insertNodeIds ns ids = ns ++ newNodeRows (ns.map Prod.fst) ids := by
  intro ids
  induction ids with
  | nil => intro ns; simp [insertNodeIds, newNodeRows]
  | cons id ids ih =>
      intro ns
      show insertNodeIds (if id ∈ ns.map Prod.fst then ns else ns ++ [(id, none)])
        ids = _
      unfold newNodeRows
      by_cases h : id ∈ ns.map Prod.fst
      · rw [if_pos h, if_pos h, ih ns]
      · rw [if_neg h, if_neg h, ih (ns ++ [(id, none)])]
        rw [List.map_append, List.append_assoc]
        rfl

theorem fst_insertNodeIds (ns : List (String × Option String))
    (ids : List String) :
    (insertNodeIds ns ids).map Prod.fst =
      ns.map Prod.fst ++ (newNodeRows (ns.map Prod.fst) ids).map Prod.fst := by
  rw [insertNodeIds_spec, List.map_append]

theorem mem_fst_insertNodeIds_of_mem {id : String} : ∀ {ids : List String}
    {ns : List (String × Option String)}, id ∈ ns.map Prod.fst →
    id ∈ (insertNodeIds ns ids).map Prod.fst := by
  intro ids
  induction ids with
  | nil => intro ns h; exact h
  | cons x ids ih =>
      intro ns h
      show id ∈ ((insertNodeIds (if x ∈ ns.map Prod.fst then ns
        else ns ++ [(x, none)]) ids).map Prod.fst)
      by_cases hx : x ∈ ns.map Prod.fst
      · rw [if_pos hx]; exact ih h
      · rw [if_neg hx]
        exact ih (by rw [List.map_append]; exact List.mem_append_left _ h)

theorem mem_fst_insertNodeIds_self {id : String} : ∀ {ids : List String}
    (ns : List (String × Option String)), id ∈ ids →
    id ∈ (insertNodeIds ns ids).map Prod.fst := by
  intro ids
  induction ids with
  | nil => intro ns h; cases h
  | cons x ids ih =>
      intro ns h
      show id ∈ ((insertNodeIds (if x ∈ ns.map Prod.fst then ns
        else ns ++ [(x, none)]) ids).map Prod.fst)
      rcases List.mem_cons.mp h with rfl | h'
      · by_cases hx : id ∈ ns.map Prod.fst
        · rw [if_pos hx]; exact mem_fst_insertNodeIds_of_mem hx
        · rw [if_neg hx]
          refine mem_fst_insertNodeIds_of_mem ?_
          rw [List.map_append]
          exact List.mem_append_right _ (by simp)
      · by_cases hx : x ∈ ns.map Prod.fst
        · rw [if_pos hx]; exact ih _ h'
        · rw [if_neg hx]; exact ih _ h'

theorem insertNodeIds_of_mem : ∀ {ids : List String}
    {ns : List (String × Option String)},
    (∀ id ∈ ids, id ∈ ns.map Prod.fst) → insertNodeIds ns ids = ns := by
  intro ids
  induction ids with
  | nil => intro ns _; rfl
  | cons x ids ih =>
      intro ns h
      show insertNodeIds (if x ∈ ns.map Prod.fst then ns
        else ns ++ [(x, none)]) ids = ns
      rw [if_pos (h x (List.mem_cons_self x ids))]
      exact ih (fun id hid => h id (List.mem_cons_of_mem x hid))

/-! ### The batch-application equations -/

theorem undoNodes_append (log : List MoveOp) (minT : String)
    (ns ms : List (String × Option String)) :
    undoNodes log minT (ns ++ ms) =
      undoNodes log minT ns ++ undoNodes log minT ms :=
  List.map_append ..

theorem insertMoveOperations_ne_nil {ops : List MoveOp} (h : ops ≠ [])
    (db : DB) :
    insertMoveOperations db ops =
      { nodes := redo (insertLog db.op_log ops) (minTimestamp ops)
          (undoNodes (insertLog db.op_log ops) (minTimestamp ops)
            (insertNodeIds db.nodes (ops.flatMap nodeRefs)))
        op_log := insertLog db.op_log ops } := by
  unfold insertMoveOperations
  rw [if_neg (by simp [List.isEmpty_iff, h])]

theorem insertMoveOperations_nil (db : DB) :
    insertMoveOperations db [] = db := rfl

/-- Sequential application of two batches equals application of their
concatenation, provided the second batch's replay bound reaches at or
below every timestamp of the first batch. -/
theorem insertMoveOperations_seq_append (db : DB) (B1 B2 : List MoveOp)
    (hmin : ∀ op ∈ B1, strLe (minTimestamp B2) op.timestamp = true) :
    insertMoveOperations (insertMoveOperations db B1) B2 =
      insertMoveOperations db (B1 ++ B2) := by
  by_cases hb1 : B1 = []
  · subst hb1
    rw [insertMoveOperations_nil, List.nil_append]
  by_cases hb2 : B2 = []
  · subst hb2
    rw [List.append_nil]
    exact insertMoveOperations_nil (insertMoveOperations db B1)
  have hne12 : B1 ++ B2 ≠ [] := by
    intro hc
    exact hb1 (List.append_eq_nil.mp hc).1
  have hm21 : strLe (minTimestamp B2) (minTimestamp B1) = true :=
    le_foldlMin hmin maxTimestampSentinel (minTimestamp_le_sentinel B2)
  rw [insertMoveOperations_ne_nil hb1 db]
  rw [insertMoveOperations_ne_nil hb2]
  rw [insertMoveOperations_ne_nil hne12 db]
  dsimp only
  simp only [minTimestamp_append_eq hmin, insertLog_append,
    List.flatMap_append, insertNodeIds_append]
  congr 1
  refine congrArg (redo (insertLog (insertLog db.op_log B1) B2)
    (minTimestamp B2)) ?_
  set M := insertNodeIds db.nodes (B1.flatMap nodeRefs) with hM
  set L1 := insertLog db.op_log B1 with hL1
  set L2 := insertLog L1 B2 with hL2
  set m1 := minTimestamp B1 with hm1
  set m2 := minTimestamp B2 with hm2
  set S1n := redo L1 m1 (undoNodes L1 m1 M) with hS1n
  have hkeys : S1n.map Prod.fst = M.map Prod.fst := by
    rw [hS1n, fst_redo, fst_undoNodes]
  rw [insertNodeIds_spec _ S1n, insertNodeIds_spec _ M, hkeys]
  rw [undoNodes_append, undoNodes_append]
  refine congrArg (fun ns => ns ++ undoNodes L2 m2
    (newNodeRows (M.map Prod.fst) (B2.flatMap nodeRefs))) ?_
  have hstep1 : undoNodes L2 m2 S1n = undoNodes L2 m2 (undoNodes L1 m1 M) := by
    rw [hS1n]
    refine undoNodes_redo ?_ _
    intro e he hts
    exact ⟨mem_insertLog_of_mem he, strLe_trans hm21 hts⟩
  have hstep2 : undoNodes L2 m2 (undoNodes L1 m1 M) = undoNodes L2 m2 M := by
    refine undoNodes_undoNodes ?_ _
    intro id e hsome
    rcases earliestSince_mem hsome with ⟨hmem, hid, hts⟩
    exact earliestSince_isSome (mem_insertLog_of_mem hmem) hid
      (strLe_trans hm21 hts)
  rw [hstep1, hstep2]

/-- Applying the same batch a second time is a no-op on both tables. -/
theorem insertMoveOperations_idem (db : DB) (B : List MoveOp) :
    insertMoveOperations (insertMoveOperations db B) B =
      insertMoveOperations db B := by
  by_cases hb : B = []
  · subst hb
    rw [insertMoveOperations_nil, insertMoveOperations_nil]
  rw [insertMoveOperations_ne_nil hb db]
  rw [insertMoveOperations_ne_nil hb]
  dsimp only
  set m := minTimestamp B with hm
  set L1 := insertLog db.op_log B with hL1
  set N1 := insertNodeIds db.nodes (B.flatMap nodeRefs) with hN1
  set S1n := redo L1 m (undoNodes L1 m N1) with hS1n
  have hlog : insertLog L1 B = L1 :=
    insertLog_of_hasTs (fun op hop => hasTs_insertLog_self hop db.op_log)
  have hkeys : S1n.map Prod.fst = N1.map Prod.fst := by
    rw [hS1n, fst_redo, fst_undoNodes]
  have hnodesins : insertNodeIds S1n (B.flatMap nodeRefs) = S1n := by
    refine insertNodeIds_of_mem ?_
    intro id hid
    rw [hkeys, hN1]
    exact mem_fst_insertNodeIds_self db.nodes hid
  rw [hlog, hnodesins]
  have hundo : undoNodes L1 m S1n = undoNodes L1 m N1 := by
    rw [hS1n]
    have h1 : undoNodes L1 m (redo L1 m (undoNodes L1 m N1)) =
        undoNodes L1 m (undoNodes L1 m N1) := by
      refine undoNodes_redo ?_ _
      intro e he hts
      exact ⟨he, hts⟩
    have h2 : undoNodes L1 m (undoNodes L1 m N1) = undoNodes L1 m N1 := by
      refine undoNodes_undoNodes ?_ _
      intro id e hsome
      simp [hsome]
    rw [h1, h2]
  rw [hundo]

/-! ### Concrete scenarios -/

/-- Build a move operation from its seven fields. -/
def mkMove (ts nid : String) (old : Option String) (np cid : String)
    (sync last : Option String) : MoveOp :=
  { timestamp := ts, node_id := nid, old_parent_id := old, new_parent_id := np,
    client_id := cid, sync_timestamp := sync, last_sync_timestamp := last }

/-- create X under ROOT at "0001". -/
def c1opX : MoveOp := mkMove "0001" "X" none "ROOT" "c1" none none

/-- create C under X at "0002". -/
def c1opC : MoveOp := mkMove "0002" "C" none "X" "c2" none none

/-- move X under P at "0003"; the issuing client saw X under ROOT. -/
def c1opA : MoveOp := mkMove "0003" "X" (some "ROOT") "P" "c1" none none

/-- move X under its own descendant C at "0004"; the issuing client had not
seen `c1opA` and saw X under ROOT. -/
def c1opB : MoveOp := mkMove "0004" "X" (some "ROOT") "C" "c2" none none

/-- The two replicas of the C1 counterexample: one applies the first three
operations and then the fourth, the other applies all four at once. -/
def c1seq : DB :=
  insertMoveOperations (insertMoveOperations initialDB [c1opX, c1opC, c1opA])
    [c1opB]

/-- The same operation set applied as one batch to a fresh replica. -/
def c1union : DB := insertMoveOperations initialDB ([c1opX, c1opC, c1opA] ++ [c1opB])

/-- C2 counterexample state: four operations where the last one is skipped
as a cycle, so the undo value supplied by the operation survives a replay. -/
def c2ops : List MoveOp :=
  [mkMove "0010" "X" none "ROOT" "c1" none none,
   mkMove "0011" "C" none "X" "c2" none none,
   mkMove "0012" "X" (some "ROOT") "A" "c1" none none,
   mkMove "0013" "X" (some "ROOT") "C" "c2" none none]

/-- The duplicate operation re-appended in the C2 counterexample. -/
def c2dup : MoveOp := mkMove "0013" "X" (some "ROOT") "C" "c2" none none

def c2state : DB := insertMoveOperations initialDB c2ops

def c2redup : DB := insertMoveOperations c2state [c2dup]

/-- C5 scenario: build ROOT → A → B → C. -/
def c5setup : List MoveOp :=
  [mkMove "0021" "A" none "ROOT" "c1" none none,
   mkMove "0022" "B" none "A" "c1" none none,
   mkMove "0023" "C" none "B" "c1" none none]

/-- C5 scenario: the cycle-creating move of A under its descendant C. -/
def c5move : MoveOp := mkMove "0024" "A" (some "ROOT") "C" "c1" none none

def c5before : DB := insertMoveOperations initialDB c5setup

def c5after : DB := insertMoveOperations c5before [c5move]

/-- C6 failing input: create A under ROOT, then move A under itself. -/
def c6create : MoveOp := mkMove "0031" "A" none "ROOT" "c1" none none

def c6self : MoveOp := mkMove "0032" "A" (some "ROOT") "A" "c1" none none

def c6before : DB := insertMoveOperations initialDB [c6create]

def c6after : DB := insertMoveOperations c6before [c6self]

/-- C3 failing input, the delete/concurrent-add scenario of the spec:
A under ROOT and B under A exist, client cA deletes B, client cB
concurrently creates D under B; both pushes carry the same knowledge
cutoff "0000". -/
def c3setup : List MoveOp :=
  [mkMove "0041" "A" none "ROOT" "cA" none none,
   mkMove "0042" "B" none "A" "cA" none none]

def c3del : MoveOp := mkMove "0043" "B" (some "A") "TOMBSTONE" "cA" none (some "0000")

def c3add : MoveOp := mkMove "0044" "D" none "B" "cB" none (some "0000")

def c3base : DB := insertMoveOperations initialDB c3setup

def c3push1 : PushResult := serverPush c3base [c3del] "0050"

def c3push2 : PushResult := serverPush c3push1.db [c3add] "0051"

/-- C9 failing input: one unsynced local operation pushed to the Relay,
whose broadcast is then applied by a peer replica. -/
def c9op : MoveOp := mkMove "0061" "X" none "ROOT" "c1" none none

def c9push : PushResult := serverPush initialDB [c9op] "0070"

def c9peer : DB := insertMoveOperations initialDB c9push.broadcast

/-- C7 counterexample rows: one row whose `sync_timestamp` equals the
cursor, and two rows whose timestamp order disagrees with their
`sync_timestamp` order. -/
def c7edge : MoveOp := mkMove "0081" "N" none "ROOT" "c1" (some "s5") none

def c7a : MoveOp := mkMove "0082" "N" none "ROOT" "c1" (some "s8") none

def c7b : MoveOp := mkMove "0083" "M" none "ROOT" "c1" (some "s6") none

/-- C8 counterexample operation: its timestamp sorts above the sentinel
"2999-01-01T00:00:00Z". -/
def c8op : MoveOp := mkMove "2999-06-01T00:00:00Z-a" "Z" none "ROOT" "c1" none none

/-- C4 failing input: a chain of 101 nodes below ROOT built by the CRDT,
then `move(ROOT, node 101)`, whose ancestor walk is truncated at depth
100 and therefore misses ROOT. -/
def nId (k : Nat) : String := toString k

/-- Sortable zero-padded timestamps "0001" … "0101" below the sentinel. -/
def padT (n : Nat) : String :=
  "0" ++ (if n < 10 then "00" ++ toString n
          else if n < 100 then "0" ++ toString n else toString n)

/-- The k-th chain operation: create node k+1 under node k (node 1 under
ROOT). -/
def chainOp (k : Nat) : MoveOp :=
  mkMove (padT (k + 1)) (nId (k + 1)) none
    (if k = 0 then "ROOT" else nId k) "c1" none none

def chainBatch (a b : Nat) : List MoveOp := (List.range' a b).map chainOp

/-- The replica state after the first `k` chain operations. -/
def preDB (k : Nat) : DB :=
  { nodes := [("ROOT", none), ("TOMBSTONE", none), ("1", some "ROOT"), ("null", none)] ++
      (List.range (k - 1)).map (fun j => (nId (j + 2), some (nId (j + 1))))
    op_log := (List.range k).map (fun j => toLogRow (chainOp j)) }

/-- The move that the depth-100 walk wrongly lets through. -/
def c4moveRoot : MoveOp := mkMove "0999" "ROOT" none (nId 101) "c1" none none

def c4final : DB := insertMoveOperations (preDB 101) [c4moveRoot]

/-! ### Claims -/

/-- C10: calling `insertMoveOperations` with an empty operation list returns
early; for every starting state both the op_log and the nodes table are
left completely unchanged. -/
theorem c10_empty_batch_noop (db : DB) : insertMoveOperations db [] = db :=
  insertMoveOperations_nil db

/-- C6: the claim says a move with `new_parent_id = node_id` is skipped as a
self-cycle.  The code applies it: the ancestor walk starts at the parent of
`new_parent_id`, so in the state ROOT → A the chain for `move(A, A)` is
[ROOT], A is not in it, and the update sets A's parent to A itself. -/
theorem c6_self_move_applied :
    lookupParent c6before.nodes "A" = some (some "ROOT") ∧
    lookupParent c6after.nodes "A" = some (some "A") := by
  exact ⟨by decide, by decide⟩

/-- C5: a redo entry whose `node_id` occurs in the (depth-bounded) ancestor
chain of its `new_parent_id` leaves the nodes table unchanged; concretely,
applying move(A, C) with C a descendant of A leaves the materialized tree
unchanged while the operation is recorded in op_log. -/
theorem c5_cycle_skip :
    (∀ (ns : List (String × Option String)) (e : MoveOp),
        e.node_id ∈ ancestorChain ns e.new_parent_id →
        applyMoveStatement ns e = ns) ∧
    c5after.nodes = c5before.nodes ∧ hasTs c5after.op_log "0024" = true := by
  refine ⟨?_, by decide, by decide⟩
  intro ns e h
  unfold applyMoveStatement
  have hid : ∀ r ∈ ns,
      (if r.1 = e.node_id then
        (r.1, if e.node_id ∈ ancestorChain ns e.new_parent_id
              then r.2 else some e.new_parent_id)
      else r) = r := by
    intro r _
    by_cases hr : r.1 = e.node_id
    · rw [if_pos hr, if_pos h]
    · rw [if_neg hr]
  rw [List.map_congr_left hid]
  exact List.map_id' ns

/-- Witness for C5: the concrete cycle-creating move is skipped. -/
theorem c5_cycle_skip_witness :
    applyMoveStatement c5before.nodes c5move = c5before.nodes :=
  c5_cycle_skip.1 c5before.nodes c5move (by decide)

/-- C3: the push handler persists and broadcasts exactly the pushed
operations; in the spec's delete/concurrent-add scenario no operation
attributed to client id "server" is synthesized, and B stays under
TOMBSTONE with D below it. -/
theorem c3_no_corrective_operation :
    c3push1.broadcast = [c3del] ∧ c3push2.broadcast = [c3add] ∧
    (∀ e ∈ c3push2.db.op_log, e.client_id ≠ "server") ∧
    lookupParent c3push2.db.nodes "B" = some (some "TOMBSTONE") ∧
    lookupParent c3push2.db.nodes "D" = some (some "B") := by
  refine ⟨by decide, by decide, by decide, by decide, by decide⟩

/-- C9: the Relay answers the push with the server timestamp and persists
the stamped rows, but broadcasts the original operations whose
`sync_timestamp` is still null; a peer applying the broadcast therefore
stores the operation with a null `sync_timestamp`. -/
theorem c9_broadcast_unstamped :
    c9push.response_sync_timestamp = "0070" ∧
    c9push.broadcast = [c9op] ∧ c9op.sync_timestamp = none ∧
    (∃ e ∈ c9push.db.op_log, e.timestamp = "0061" ∧
      e.sync_timestamp = some "0070") ∧
    (∀ e ∈ c9peer.op_log, e.sync_timestamp = none) ∧
    c9peer.op_log ≠ [] := by
  refine ⟨by decide, by decide, by decide, by decide, by decide, by decide⟩

/-- C1 counterexample: applying {c1opX, c1opC, c1opA} and then {c1opB}
leaves X under ROOT, while applying the union in one batch to a fresh
replica leaves X under P: the two nodes tables differ, refuting
order-insensitivity of batch application. -/
theorem c1_batch_order_counterexample :
    lookupParent c1seq.nodes "X" = some (some "ROOT") ∧
    lookupParent c1union.nodes "X" = some (some "P") ∧
    c1seq.nodes ≠ c1union.nodes := by
  refine ⟨by decide, by decide, by decide⟩

/-- C1 amended: sequential application equals one-batch application
whenever the second batch's computed replay bound lies at or below every
timestamp of the first batch, from any starting state. -/
theorem c1_sequential_apply_eq_union (db : DB) (B1 B2 : List MoveOp)
    (hmin : ∀ op ∈ B1, strLe (minTimestamp B2) op.timestamp = true) :
    insertMoveOperations (insertMoveOperations db B1) B2 =
      insertMoveOperations db (B1 ++ B2) :=
  insertMoveOperations_seq_append db B1 B2 hmin

/-- Witness for C1: a later batch followed by an earlier one. -/
theorem c1_sequential_apply_eq_union_witness :
    insertMoveOperations (insertMoveOperations initialDB [c1opB]) [c1opX] =
      insertMoveOperations initialDB ([c1opB] ++ [c1opX]) :=
  c1_sequential_apply_eq_union initialDB [c1opB] [c1opX] (by decide)

/-- C2 counterexample: re-appending the already-logged operation c2dup
leaves the op_log unchanged but moves X from A back to ROOT (the replay
from the duplicate's timestamp restores the operation's `old_parent_id`
and the cycle check then skips the redo), so the duplicate append is not a
no-op on the whole state. -/
theorem c2_duplicate_append_counterexample :
    hasTs c2state.op_log c2dup.timestamp = true ∧
    c2redup.op_log = c2state.op_log ∧
    lookupParent c2state.nodes "X" = some (some "A") ∧
    lookupParent c2redup.nodes "X" = some (some "ROOT") ∧
    c2redup ≠ c2state := by
  refine ⟨by decide, by decide, by decide, by decide, by decide⟩

/-- C2 amended: applying the same batch twice equals applying it once (both
tables, any state), and appending operations whose timestamps already
exist leaves the op_log unchanged. -/
theorem c2_apply_idempotent_log_noop :
    (∀ (db : DB) (B : List MoveOp),
        insertMoveOperations (insertMoveOperations db B) B =
          insertMoveOperations db B) ∧
    (∀ (db : DB) (ops : List MoveOp),
        (∀ op ∈ ops, hasTs db.op_log op.timestamp = true) →
        (insertMoveOperations db ops).op_log = db.op_log) := by
  constructor
  · exact insertMoveOperations_idem
  · intro db ops h
    by_cases hb : ops = []
    · subst hb; rfl
    · rw [insertMoveOperations_ne_nil hb]
      exact insertLog_of_hasTs h

/-- Witness for C2: re-appending the duplicate leaves the log unchanged. -/
theorem c2_apply_idempotent_log_noop_witness :
    (insertMoveOperations c2state [c2dup]).op_log = c2state.op_log :=
  c2_apply_idempotent_log_noop.2 c2state [c2dup] (by decide)

/-- C7 counterexample: the stream includes a row whose `sync_timestamp`
equals the cursor (the SQL uses >=, not >), and delivers rows in ascending
`timestamp` order, which here is descending `sync_timestamp` order. -/
theorem c7_stream_cursor_counterexample :
    streamOperations [c7edge] "s5" "s9" = [c7edge] ∧
    c7edge.sync_timestamp = some "s5" ∧ strLt "s5" "s5" = false ∧
    streamOperations [c7a, c7b] "s0" "s9" = [c7a, c7b] ∧
    c7a.sync_timestamp = some "s8" ∧ c7b.sync_timestamp = some "s6" ∧
    strLt "s6" "s8" = true := by
  refine ⟨by decide, by decide, by decide, by decide, by decide, by decide,
    by decide⟩

/-- C7 amended: the stream consists exactly of the log rows whose
`sync_timestamp` lies in the inclusive interval [cursor, upperLimit], in
ascending `timestamp` order, and the header precedes it carrying the
cursor, the snapshotted upper limit, and the row counts. -/
theorem c7_stream_characterization :
    (∀ (log : List MoveOp) (c u : String) (e : MoveOp),
        e ∈ streamOperations log c u ↔ e ∈ log ∧ syncInRange e c u = true) ∧
    (∀ (log : List MoveOp) (c u : String),
        (streamOperations log c u).Pairwise tsLe) ∧
    (∀ (db : DB) (c now : String),
        syncStreamResponse db c now =
          ({ lowerLimit := c
             upperLimit := now
             nodes := db.nodes.length
             operations :=
               (db.op_log.filter (fun e => syncInRange e c now)).length },
           streamOperations db.op_log c now)) := by
  refine ⟨?_, ?_, fun db c now => rfl⟩
  · intro log c u e
    unfold streamOperations
    rw [mem_sortByTimestamp, List.mem_filter]
  · intro log c u
    exact pairwise_sortByTimestamp _

/-- C8 counterexample: for a batch whose only timestamp sorts above the
sentinel "2999-01-01T00:00:00Z", the computed replay bound is the sentinel,
which is not a timestamp of the batch, so it is not the batch minimum. -/
theorem c8_min_timestamp_counterexample :
    minTimestamp [c8op] = maxTimestampSentinel ∧
    maxTimestampSentinel ∉ [c8op].map MoveOp.timestamp := by
  refine ⟨by decide, by decide⟩

/-- C8 amended: the replay bound is the minimum of the sentinel and the
batch timestamps (it lower-bounds every batch timestamp, lower-bounds the
sentinel, and is either the sentinel or a batch timestamp), and after the
undo phase every node row with a selected earliest entry carries that
entry's `old_parent_id`, where the selected entry is a minimal-timestamp
log entry of that node at or after the bound. -/
theorem c8_replay_bound_and_undo :
    (∀ (ops : List MoveOp) (op : MoveOp), op ∈ ops →
        strLe (minTimestamp ops) op.timestamp = true) ∧
    (∀ ops : List MoveOp,
        strLe (minTimestamp ops) maxTimestampSentinel = true) ∧
    (∀ ops : List MoveOp, minTimestamp ops = maxTimestampSentinel ∨
        minTimestamp ops ∈ ops.map MoveOp.timestamp) ∧
    (∀ (log : List MoveOp) (minT : String)
        (ns : List (String × Option String)) (r : String × Option String)
        (e : MoveOp), r ∈ ns → earliestSince log minT r.1 = some e →
        (r.1, e.old_parent_id) ∈ undoNodes log minT ns) ∧
    (∀ (log : List MoveOp) (minT id : String) (e : MoveOp),
        earliestSince log minT id = some e →
        e ∈ log ∧ e.node_id = id ∧ strLe minT e.timestamp = true ∧
        ∀ e' ∈ log, e'.node_id = id → strLe minT e'.timestamp = true →
          strLe e.timestamp e'.timestamp = true) := by
  refine ⟨fun ops op h => minTimestamp_le_mem h, minTimestamp_le_sentinel,
    minTimestamp_sentinel_or_mem, ?_, ?_⟩
  · intro log minT ns r e hr hsome
    unfold undoNodes
    refine List.mem_map.mpr ⟨r, hr, ?_⟩
    simp [hsome]
  · intro log minT id e hsome
    rcases earliestSince_mem hsome with ⟨h1, h2, h3⟩
    exact ⟨h1, h2, h3, earliestSince_minimal hsome⟩

/-- Witness for C8: the bound lower-bounds the timestamp of c8op, and the
undo phase rewrites a concrete row to its entry's old parent. -/
theorem c8_replay_bound_and_undo_witness :
    strLe (minTimestamp [c8op]) c8op.timestamp = true ∧
    ("Z", none) ∈ undoNodes [toLogRow c8op] maxTimestampSentinel
      [("Z", some "ROOT")] :=
  ⟨c8_replay_bound_and_undo.1 [c8op] c8op (by decide),
   c8_replay_bound_and_undo.2.2.2.1 [toLogRow c8op] maxTimestampSentinel
     [("Z", some "ROOT")] ("Z", some "ROOT") (toLogRow c8op) (by decide)
     (by decide)⟩

section

set_option maxRecDepth 200000

set_option maxHeartbeats 4000000

/-- C4: code_bug evidence.  `preDB k` is the replica state committed by
applying the first `k` chain operations (the first conjunct checks this
shape against `insertMoveOperations` itself for `k = 3`; `preDB 101` is the
state after the batch `chainBatch 0 101`, a chain ROOT → 1 → … → 101).
Applying `move(ROOT, 101)` to it passes the depth-100 ancestor walk (ROOT
sits at depth 101, beyond the bound), so the committed state contains the
directed cycle ROOT → 101 → 100 → … → 1 → ROOT; every node on it reaches
ROOT, so the cycle lies entirely inside the live node set. -/
theorem c4_depth_bound_live_cycle :
    insertMoveOperations initialDB (chainBatch 0 3) = preDB 3 ∧
    lookupParent (preDB 101).nodes "ROOT" = some none ∧
    lookupParent c4final.nodes "ROOT" = some (some "101") ∧
    parentIter c4final.nodes 102 "ROOT" = some "ROOT" ∧
    parentIter c4final.nodes 101 "101" = some "ROOT" :=
  ⟨by decide, by decide, by decide, by decide, by decide⟩

end
